import Mathlib

/-!
Verification of the PolyglotUI Figma-plugin core (src/code.ts).

The plugin logic is embedded shallowly:
* strings are Lean `String`s; the JS regex character classes are modelled by
  explicit character predicates covering exactly the ASCII behaviour of
  `\w`, `\s` and `-` that the source relies on;
* the document is a tree of scene nodes (`SceneNode`/`SceneForest`); a node's
  plugin-data store (`figma`'s `getPluginData`/`setPluginData`) is an
  association list from string keys to string values, an absent key reading
  back as the empty-string sentinel, exactly as in the host;
* each message handler of src/code.ts becomes a pure function from the page
  forest (plus the message payload and, where the handler reads it, the
  current selection) to the updated page forest / produced outcome.
-/

namespace PolyglotUI

/-! ## Character classes of the JS regexes -/

/-- JS `\w` (ASCII): letters, digits and underscore. -/
def isWordChar (c : Char) : Bool := c.isAlphanum || c == '_'

/-- JS `\s` restricted to ASCII: space, tab, newline, carriage return,
vertical tab and form feed. -/
def isSpaceChar (c : Char) : Bool :=
  c == ' ' || c == '\t' || c == '\n' || c == '\r' || c == '\x0b' || c == '\x0c'

/-- The class `[\s_-]` collapsed to a dot by `slugify`. -/
def isCollapseChar (c : Char) : Bool := isSpaceChar c || c == '_' || c == '-'

/-- The class `[^\w\s-]` is stripped; this is the kept complement. -/
def isKeptChar (c : Char) : Bool := isWordChar c || isSpaceChar c || c == '-'

/-! ## List-of-characters helpers mirroring the JS string operations -/

/-- `.replace(/X+/g, '.')` for the class `p`: each maximal run of characters
satisfying `p` becomes a single dot.  The flag records whether the previous
character belonged to a run. -/
def replaceRunsAux (p : Char → Bool) : Bool → List Char → List Char
  | _, [] => []
  | inRun, c :: rest =>
    if p c then
      if inRun then replaceRunsAux p true rest
      else '.' :: replaceRunsAux p true rest
    else c :: replaceRunsAux p false rest

def replaceRuns (p : Char → Bool) (l : List Char) : List Char :=
  replaceRunsAux p false l

/-- `.replace(/^-+|-+$/g, '')`: drop the leading and the trailing run of
hyphens. -/
def trimHyphens (l : List Char) : List Char :=
  ((l.dropWhile (fun c => c == '-')).reverse.dropWhile (fun c => c == '-')).reverse

/-- JS `String.prototype.trim()` over the modelled whitespace class. -/
def jsTrim (l : List Char) : List Char :=
  ((l.dropWhile isSpaceChar).reverse.dropWhile isSpaceChar).reverse

/-- One character prepended to an already-split suffix: a dot opens a fresh
empty segment, any other character extends the first segment. -/
def splitCons (c : Char) : List (List Char) → List (List Char)
  | [] => [[c]]
  | s :: ss => if c = '.' then [] :: s :: ss else (c :: s) :: ss

/-- JS `split('.')`: the dot-separated segments, empty segments included;
the empty string yields one empty segment, as in JS. -/
def splitOnDot : List Char → List (List Char)
  | [] => [[]]
  | c :: rest => splitCons c (splitOnDot rest)

/-- JS `join('.')`. -/
def joinDots : List (List Char) → List Char
  | [] => []
  | [s] => s
  | s :: rest => s ++ '.' :: joinDots rest

/-- JS `String.prototype.includes`: `startsWithL hay needle` is true when
`needle` is a prefix of `hay`. -/
def startsWithL : List Char → List Char → Bool
  | _, [] => true
  | [], _ :: _ => false
  | h :: t, n :: m => h == n && startsWithL t m

def containsSub : List Char → List Char → Bool
  | [], needle => needle.isEmpty
  | h :: t, needle => startsWithL (h :: t) needle || containsSub t needle

/-- ASCII lowercase of a string (JS `toLowerCase` on the ASCII range). -/
def lowerStr (s : String) : String := String.mk (s.data.map Char.toLower)

/-- ASCII uppercase of a string (JS `toUpperCase` on the ASCII range). -/
def upperStr (s : String) : String := String.mk (s.data.map Char.toUpper)

/-- `hay.includes(needle)` of JS. -/
def containsStr (hay needle : String) : Bool := containsSub hay.data needle.data

/-! ## slugify (src/code.ts lines 3–12)

```
function slugify(text) {
  return text.toLowerCase()
    .replace(/[^\w\s-]/g, '')
    .replace(/[\s_-]+/g, '.')
    .replace(/^-+|-+$/g, '')
    .split('.').slice(0, 3).join('.');
}
``` -/

def slugifyL (l : List Char) : List Char :=
  joinDots
    ((splitOnDot
        (trimHyphens
          (replaceRuns isCollapseChar
            ((l.map Char.toLower).filter isKeptChar)))).take 3)

def slugify (s : String) : String := String.mk (slugifyL s.data)

/-- Modelled from the spec: the spec's §4.1 description of the slugifier,
which differs from the source in its last two steps — it trims leading and
trailing *dots* (the source trims hyphens) and keeps the first 3 *non-empty*
segments (the source's `slice(0, 3)` keeps empty segments too). -/
def slugifySpecL (l : List Char) : List Char :=
  let collapsed := replaceRuns isCollapseChar ((l.map Char.toLower).filter isKeptChar)
  let trimmed :=
    ((collapsed.dropWhile (fun c => c == '.')).reverse.dropWhile
      (fun c => c == '.')).reverse
  joinDots (((splitOnDot trimmed).filter (fun seg => !seg.isEmpty)).take 3)

def slugifySpec (s : String) : String := String.mk (slugifySpecL s.data)

/-! ## Ancestry, context and screen classification

A text node's parent chain is modelled as the list of its ancestors, nearest
first.  Every ancestor is either a container scene node (with its Figma node
type and name) or the page itself. -/

inductive ContainerType where
  | frame
  | component
  | inst
  | group
deriving DecidableEq

inductive Ancestor where
  | cont (ctype : ContainerType) (name : String)
  | page
deriving DecidableEq

/-- `FRAME`, `COMPONENT` and `INSTANCE` are the boundary container types both
classifiers test for. -/
def isBoundary : ContainerType → Bool
  | ContainerType.frame => true
  | ContainerType.component => true
  | ContainerType.inst => true
  | ContainerType.group => false

/-- getContext's ascent (src/code.ts lines 14–29): walk the parent chain past
every non-boundary ancestor — the PAGE included, since the loop only stops on
FRAME/COMPONENT/INSTANCE or null — and return the first boundary name. -/
def findBoundaryName : List Ancestor → Option String
  | [] => none
  | Ancestor.page :: rest => findBoundaryName rest
  | Ancestor.cont t n :: rest =>
    if isBoundary t then some n else findBoundaryName rest

def getContext (anc : List Ancestor) : String :=
  let parentName :=
    match findBoundaryName anc with
    | some n => lowerStr n
    | none => "global"
  if containsStr parentName "button" then "button"
  else if containsStr parentName "header" || containsStr parentName "title" then "heading"
  else if containsStr parentName "label" then "label"
  else if containsStr parentName "input" || containsStr parentName "text field" then "input"
  else if containsStr parentName "helper" || containsStr parentName "hint" then "helper"
  else "text"

/-- getScreenName's loop (src/code.ts lines 31–43): ascend until the PAGE,
overwriting the accumulator with each boundary container's name, so the value
kept last is the outermost boundary below the page. -/
def screenAux : List Ancestor → String → String
  | [], acc => acc
  | Ancestor.page :: _, acc => acc
  | Ancestor.cont t n :: rest, acc =>
    screenAux rest (if isBoundary t then n else acc)

def getScreenName (anc : List Ancestor) : String :=
  String.mk (replaceRuns isSpaceChar (lowerStr (screenAux anc "general")).data)

/-- Modelled from the spec: §4.3's description of the screen classifier — the
name of the *outermost* boundary container strictly below the page root,
defaulting to "general", lowercased with whitespace runs replaced by a dot. -/
def boundariesBeforePage : List Ancestor → List String
  | [] => []
  | Ancestor.page :: _ => []
  | Ancestor.cont t n :: rest =>
    (if isBoundary t then [n] else []) ++ boundariesBeforePage rest

def screenNameSpec (anc : List Ancestor) : String :=
  String.mk
    (replaceRuns isSpaceChar
      (lowerStr (((boundariesBeforePage anc).getLast?).getD "general")).data)

/-! ## The document tree and the per-node plugin-data store

`setPluginData(key, value)` prepends the pair; `getPluginData(key)` reads the
most recent value, defaulting to the host's empty-string sentinel for a key
never set.  Node ids are numbers standing in for the host's opaque id
strings. -/

def PData : Type := List (String × String)

def getPluginData (pd : PData) (k : String) : String :=
  (List.lookup k pd).getD ""

def setPluginData (pd : PData) (k v : String) : PData := (k, v) :: pd

/-- The enumerated language set of the source (`['fr','de','hi','es']`). -/
def supportedLangs : List String := ["fr", "de", "hi", "es"]

def translationKey (lang : String) : String := "translation-" ++ lang

def manualKey (lang : String) : String := "isManual-" ++ lang

mutual
inductive SceneNode where
  | text (id : Nat) (name : String) (visible : Bool) (characters : String) (pdata : PData)
  | container (id : Nat) (ctype : ContainerType) (name : String) (visible : Bool)
      (pdata : PData) (children : SceneForest)
inductive SceneForest where
  | nil
  | cons (head : SceneNode) (tail : SceneForest)
end

/-! ### Observations of a forest -/

mutual
/-- All text leaves in document (pre-)order: `(id, characters, pdata)`. -/
def textLeavesN : SceneNode → List (Nat × String × PData)
  | SceneNode.text i _ _ ch pd => [(i, ch, pd)]
  | SceneNode.container _ _ _ _ _ cs => textLeavesF cs
def textLeavesF : SceneForest → List (Nat × String × PData)
  | SceneForest.nil => []
  | SceneForest.cons h t => textLeavesN h ++ textLeavesF t
end

mutual
/-- The plugin data of every node (text and container alike), pre-order. -/
def allPDataN : SceneNode → List PData
  | SceneNode.text _ _ _ _ pd => [pd]
  | SceneNode.container _ _ _ _ pd cs => pd :: allPDataF cs
def allPDataF : SceneForest → List PData
  | SceneForest.nil => []
  | SceneForest.cons h t => allPDataN h ++ allPDataF t
end

mutual
/-- `figma.getNodeByIdAsync` followed by `getPluginData`: the plugin data of
the first node carrying the id. -/
def lookupPdN : SceneNode → Nat → Option PData
  | SceneNode.text j _ _ _ pd, i => if j = i then some pd else none
  | SceneNode.container j _ _ _ pd cs, i =>
    if j = i then some pd else lookupPdF cs i
def lookupPdF : SceneForest → Nat → Option PData
  | SceneForest.nil, _ => none
  | SceneForest.cons h t, i =>
    match lookupPdN h i with
    | some pd => some pd
    | none => lookupPdF t i
end

/-- One stored key of one node, as the UI would read it back. -/
def getPdKey (f : SceneForest) (i : Nat) (k : String) : Option String :=
  (lookupPdF f i).map (fun pd => getPluginData pd k)

/-! ## scan (src/code.ts lines 45–135)

The traversal starts from the selected nodes (or from every page child when
the selection is empty), skips invisible subtrees, and collects text leaves.
Each collected leaf whose characters are not all-whitespace then gets
`originalText` set — only if it reads back empty — and `nodeKey` overwritten
with the freshly composed `screen.context.slug` key.  Since each leaf's
update depends only on that leaf's own state and ancestry, the
collect-then-write loop of the source is the same page transformation as this
single traversal. -/

def scanPd (anc : List Ancestor) (ch : String) (pd : PData) : PData :=
  let key := getScreenName anc ++ "." ++ getContext anc ++ "." ++ slugify ch
  let pd1 :=
    if getPluginData pd "originalText" = "" then setPluginData pd "originalText" ch
    else pd
  setPluginData pd1 "nodeKey" key

mutual
/-- `inSel` records that some selected ancestor-or-self has already been
entered with every node on the way visible; a node outside any entered
subtree can still start a traversal of its own when its id is selected,
exactly as `selection.forEach(traverse)` does. -/
def scanSelNode (sel : List Nat) (anc : List Ancestor) (inSel : Bool) :
    SceneNode → SceneNode
  | SceneNode.text i nm v ch pd =>
    if ((inSel || sel.contains i) && v && !(jsTrim ch.data).isEmpty : Bool) then
      SceneNode.text i nm v ch (scanPd anc ch pd)
    else SceneNode.text i nm v ch pd
  | SceneNode.container i t nm v pd cs =>
    SceneNode.container i t nm v pd
      (scanSelForest sel (Ancestor.cont t nm :: anc) ((inSel || sel.contains i) && v) cs)
def scanSelForest (sel : List Nat) (anc : List Ancestor) (inSel : Bool) :
    SceneForest → SceneForest
  | SceneForest.nil => SceneForest.nil
  | SceneForest.cons h t =>
    SceneForest.cons (scanSelNode sel anc inSel h) (scanSelForest sel anc inSel t)
end

/-- The whole-page effect of the `scan` message: traverse the selection when
non-empty, otherwise every page child. -/
def scanSelection (sel : List Nat) (f : SceneForest) : SceneForest :=
  if sel.isEmpty then scanSelForest sel [Ancestor.page] true f
  else scanSelForest sel [Ancestor.page] false f

/-! ## preview-translation (src/code.ts lines 239–252) -/

structure Item where
  id : Nat
  translatedText : String
deriving DecidableEq

def previewPd (ch : String) (pd : PData) : PData :=
  if getPluginData pd "originalText" = "" then setPluginData pd "originalText" ch
  else pd

mutual
/-- One `{id, translatedText}` item: resolve by id, skip non-text nodes,
capture `originalText` if absent, then replace the visible characters. -/
def previewNodeOne (i0 : Nat) (txt : String) : SceneNode → SceneNode
  | SceneNode.text i nm v ch pd =>
    if i = i0 then SceneNode.text i nm v txt (previewPd ch pd)
    else SceneNode.text i nm v ch pd
  | SceneNode.container i t nm v pd cs =>
    SceneNode.container i t nm v pd (previewForestOne i0 txt cs)
def previewForestOne (i0 : Nat) (txt : String) : SceneForest → SceneForest
  | SceneForest.nil => SceneForest.nil
  | SceneForest.cons h t =>
    SceneForest.cons (previewNodeOne i0 txt h) (previewForestOne i0 txt t)
end

def handlePreviewTranslation (items : List Item) (f : SceneForest) : SceneForest :=
  items.foldl (fun acc it => previewForestOne it.id it.translatedText acc) f

/-! ## revert-preview (src/code.ts lines 254–278)

The whole page is walked (visibility is not consulted); every text leaf whose
stored `originalText` is non-empty gets its characters restored to it.  No
plugin data is written. -/

mutual
def revertNode : SceneNode → SceneNode
  | SceneNode.text i nm v ch pd =>
    if getPluginData pd "originalText" = "" then SceneNode.text i nm v ch pd
    else SceneNode.text i nm v (getPluginData pd "originalText") pd
  | SceneNode.container i t nm v pd cs =>
    SceneNode.container i t nm v pd (revertForest cs)
def revertForest : SceneForest → SceneForest
  | SceneForest.nil => SceneForest.nil
  | SceneForest.cons h t => SceneForest.cons (revertNode h) (revertForest t)
end

def handleRevertPreview (f : SceneForest) : SceneForest := revertForest f

/-! ## store-translations and update-manual-translation
(src/code.ts lines 229–237 and 280–288) -/

mutual
/-- `getNodeByIdAsync(id)` then `setPluginData(k, v)` on the resolved node:
as a page transformation, set `k` on the nodes carrying the id. -/
def setPdByIdN (i0 : Nat) (k v : String) : SceneNode → SceneNode
  | SceneNode.text i nm vis ch pd =>
    if i = i0 then SceneNode.text i nm vis ch (setPluginData pd k v)
    else SceneNode.text i nm vis ch pd
  | SceneNode.container i t nm vis pd cs =>
    if i = i0 then SceneNode.container i t nm vis (setPluginData pd k v) (setPdByIdF i0 k v cs)
    else SceneNode.container i t nm vis pd (setPdByIdF i0 k v cs)
def setPdByIdF (i0 : Nat) (k v : String) : SceneForest → SceneForest
  | SceneForest.nil => SceneForest.nil
  | SceneForest.cons h t => SceneForest.cons (setPdByIdN i0 k v h) (setPdByIdF i0 k v t)
end

/-- The `store-translations` payload `{[language]: {[id]: text}}` in JS
insertion order. -/
def handleStoreTranslations (data : List (String × List (Nat × String)))
    (f : SceneForest) : SceneForest :=
  data.foldl
    (fun acc entry =>
      entry.2.foldl
        (fun acc2 e => setPdByIdF e.1 (translationKey entry.1) e.2 acc2) acc)
    f

/-- `update-manual-translation {id, lang, text}`: persist the translation and
raise the manual flag; visible text is untouched. -/
def handleUpdateManualTranslation (i0 : Nat) (lang text : String)
    (f : SceneForest) : SceneForest :=
  setPdByIdF i0 (manualKey lang) "true" (setPdByIdF i0 (translationKey lang) text f)

/-! ## clear-storage (src/code.ts lines 290–310) -/

/-- One node's wipe: `originalText`, `nodeKey`, and each language's
translation and manual flag are all reset to the empty-string sentinel. -/
def clearPd (pd : PData) : PData :=
  supportedLangs.foldl
    (fun acc lang =>
      setPluginData (setPluginData acc (translationKey lang) "") (manualKey lang) "")
    (setPluginData (setPluginData pd "originalText" "") "nodeKey" "")

mutual
def clearNode : SceneNode → SceneNode
  | SceneNode.text i nm v ch pd => SceneNode.text i nm v ch (clearPd pd)
  | SceneNode.container i t nm v pd cs =>
    SceneNode.container i t nm v (clearPd pd) (clearForest cs)
def clearForest : SceneForest → SceneForest
  | SceneForest.nil => SceneForest.nil
  | SceneForest.cons h t => SceneForest.cons (clearNode h) (clearForest t)
end

/-- `clear-storage` takes no payload and ignores the selection: every page
child is cleared recursively, visibility notwithstanding. -/
def handleClearStorage (f : SceneForest) : SceneForest := clearForest f

/-- The ten per-element keys the clear handler resets. -/
def clearedKeys : List String :=
  "originalText" :: "nodeKey" ::
    supportedLangs.foldr (fun l acc => translationKey l :: manualKey l :: acc) []

/-! ## apply-translation (src/code.ts lines 176–227)

The handler requires a non-empty selection, else it notifies an error and
returns — posting nothing back.  Otherwise each selected node is cloned
(the host gives the clone a fresh identity and a copy of all plugin data),
the clone is renamed, and every text leaf inside the clone is matched against
the provided items: the *first* item, in list order, whose original node —
resolved by the item's id against the page — carries the same `nodeKey` wins;
its `translatedText` overwrites the clone leaf's characters and is persisted
as `translation-<language>` on the clone leaf.  The originals are only read,
never written, so the page comes back unchanged; the clones' host-side
placement (appendChild, x/y offset) and their fresh ids live outside the
embedded state, the clones themselves being returned as values. -/

/-- Does item `t` match key `key`?  (`originalNode &&
originalNode.getPluginData('nodeKey') === nodeKey` after resolving `t.id`.) -/
def itemMatches (page : SceneForest) (key : String) (t : Item) : Bool :=
  match lookupPdF page t.id with
  | some pd => getPluginData pd "nodeKey" == key
  | none => false

/-- The inner `for (const t of translations) ... break` loop: the first
matching item, if any. -/
def firstMatch (page : SceneForest) (ts : List Item) (key : String) : Option Item :=
  ts.find? (itemMatches page key)

/-- One clone text leaf: skip when its inherited `nodeKey` is empty, else
overwrite characters with the first matching item's text and persist it under
`translation-<language>` on this (clone) leaf. -/
def applyTextData (page : SceneForest) (ts : List Item) (lang : String)
    (ch : String) (pd : PData) : String × PData :=
  let key := getPluginData pd "nodeKey"
  if key = "" then (ch, pd)
  else
    match firstMatch page ts key with
    | some t => (t.translatedText, setPluginData pd (translationKey lang) t.translatedText)
    | none => (ch, pd)

mutual
/-- `findAll(n => n.type === 'TEXT')` over the clone (the clone itself when it
is a text node), each found leaf updated in place. -/
def applyCloneNode (page : SceneForest) (ts : List Item) (lang : String) :
    SceneNode → SceneNode
  | SceneNode.text i nm v ch pd =>
    SceneNode.text i nm v (applyTextData page ts lang ch pd).1
      (applyTextData page ts lang ch pd).2
  | SceneNode.container i t nm v pd cs =>
    SceneNode.container i t nm v pd (applyCloneForest page ts lang cs)
def applyCloneForest (page : SceneForest) (ts : List Item) (lang : String) :
    SceneForest → SceneForest
  | SceneForest.nil => SceneForest.nil
  | SceneForest.cons h t =>
    SceneForest.cons (applyCloneNode page ts lang h) (applyCloneForest page ts lang t)
end

/-- ``clone.name = `${name} (${language.toUpperCase()})` ``. -/
def renameForLang (lang : String) : SceneNode → SceneNode
  | SceneNode.text i nm v ch pd =>
    SceneNode.text i (nm ++ " (" ++ upperStr lang ++ ")") v ch pd
  | SceneNode.container i t nm v pd cs =>
    SceneNode.container i t (nm ++ " (" ++ upperStr lang ++ ")") v pd cs

inductive ApplyMsg where
  | complete
  | error (message : String)
deriving DecidableEq

structure ApplyOutcome where
  /-- The page after the handler ran: the originals, never written to. -/
  page : SceneForest
  /-- The processed duplicates, in selection order. -/
  clones : List SceneNode
  /-- What `figma.ui.postMessage` sent back, if anything. -/
  response : Option ApplyMsg
  /-- The `figma.notify` calls, `(message, isError)`, in order. -/
  notifications : List (String × Bool)

/-- The embedded semantics is total, so the `catch` branch (host exceptions:
`apply-error{message}`) is unreachable here; the success path posts
`apply-complete` once. -/
def handleApplyTranslation (page : SceneForest) (sel : List SceneNode)
    (ts : List Item) (lang : String) : ApplyOutcome :=
  if sel.isEmpty then
    ⟨page, [], none, [("Please select elements to duplicate.", true)]⟩
  else
    ⟨page,
      sel.map (fun n => applyCloneNode page ts lang (renameForLang lang n)),
      some ApplyMsg.complete,
      [("Creating " ++ upperStr lang ++ " copy...", false),
        (upperStr lang ++ " copies generated!", false)]⟩

/-! ## The operation alphabet of the state machine (for the manual-flag
invariant): every automated operation except the explicit clear. -/

inductive Op where
  | scanOp (sel : List Nat)
  | previewOp (items : List Item)
  | storeOp (data : List (String × List (Nat × String)))
  | updateManualOp (id : Nat) (lang : String) (text : String)
  | applyOp (sel : List SceneNode) (ts : List Item) (lang : String)

def isUpdateManual : Op → Bool
  | Op.updateManualOp _ _ _ => true
  | _ => false

def runOp (f : SceneForest) : Op → SceneForest
  | Op.scanOp sel => scanSelection sel f
  | Op.previewOp items => handlePreviewTranslation items f
  | Op.storeOp data => handleStoreTranslations data f
  | Op.updateManualOp i lang txt => handleUpdateManualTranslation i lang txt f
  | Op.applyOp sel ts lang => (handleApplyTranslation f sel ts lang).page

def runOps (f : SceneForest) (ops : List Op) : SceneForest := ops.foldl runOp f

/-! ## Concrete pages used in the evaluated scenarios -/

/-- `Home ⊃ Submit Button ⊃ "Submit"`: scanning composes the key
`home.button.submit` of the spec's §8 example. -/
def demoLeaf : SceneNode := SceneNode.text 10 "Submit Label" true "Submit" []

def demoPage : SceneForest :=
  SceneForest.cons
    (SceneNode.container 12 ContainerType.frame "Home" true []
      (SceneForest.cons
        (SceneNode.container 11 ContainerType.frame "Submit Button" true []
          (SceneForest.cons demoLeaf SceneForest.nil))
        SceneForest.nil))
    SceneForest.nil

/-- Two originals whose `nodeKey` pdata collide on `home.button.submit`,
for the first-match-wins scenario. -/
def collidePage : SceneForest :=
  SceneForest.cons
    (SceneNode.text 1 "A" true "Submit" [("nodeKey", "home.button.submit")])
    (SceneForest.cons
      (SceneNode.text 2 "B" true "Submit" [("nodeKey", "home.button.submit")])
      SceneForest.nil)

/-! # Helper lemmas -/

/-! ## Plugin-data reads after writes -/

theorem getPluginData_set_same (pd : PData) (k v : String) :
    getPluginData (setPluginData pd k v) k = v := by
  simp [getPluginData, setPluginData, List.lookup]

theorem getPluginData_set_ne (pd : PData) (k k' v : String) (h : k ≠ k') :
    getPluginData (setPluginData pd k' v) k = getPluginData pd k := by
  have hb : (k == k') = false := beq_eq_false_iff_ne.mpr h
  simp [getPluginData, setPluginData, List.lookup, hb]

/-! ## Distinguishing the stored keys (with a variable language suffix) -/

def strHead (s : String) : Option Char := s.data.head?

theorem strHead_append (a l : String) (c : Char) (r : List Char)
    (ha : a.data = c :: r) : strHead (a ++ l) = some c := by
  unfold strHead
  rw [String.data_append, ha]
  rfl

theorem ne_of_strHead {s t : String} (h : strHead s ≠ strHead t) : s ≠ t :=
  fun he => h (congrArg strHead he)

theorem manualKey_ne_originalText (l : String) : manualKey l ≠ "originalText" := by
  apply ne_of_strHead
  rw [show manualKey l = "isManual-" ++ l from rfl,
    strHead_append "isManual-" l 'i' ("sManual-".data) rfl]
  decide

theorem manualKey_ne_nodeKey (l : String) : manualKey l ≠ "nodeKey" := by
  apply ne_of_strHead
  rw [show manualKey l = "isManual-" ++ l from rfl,
    strHead_append "isManual-" l 'i' ("sManual-".data) rfl]
  decide

theorem manualKey_ne_translationKey (l l' : String) :
    manualKey l ≠ translationKey l' := by
  apply ne_of_strHead
  rw [show manualKey l = "isManual-" ++ l from rfl,
    show translationKey l' = "translation-" ++ l' from rfl,
    strHead_append "isManual-" l 'i' ("sManual-".data) rfl,
    strHead_append "translation-" l' 't' ("ranslation-".data) rfl]
  decide

theorem manualKey_inj {l l' : String} (h : manualKey l = manualKey l') : l = l' := by
  have h2 := congrArg String.data h
  rw [show manualKey l = "isManual-" ++ l from rfl,
    show manualKey l' = "isManual-" ++ l' from rfl,
    String.data_append, String.data_append] at h2
  exact String.ext (List.append_cancel_left h2)

/-! ## What one node-level update may write

`PdRel w pd pd'` relates a node's plugin data before and after an update that
only writes keys satisfying `w` and that never overwrites a non-empty
`originalText`. -/

def PdRel (w : String → Prop) (pd pd' : PData) : Prop :=
  (∀ k, ¬ w k → getPluginData pd' k = getPluginData pd k) ∧
  (getPluginData pd "originalText" ≠ "" →
    getPluginData pd' "originalText" = getPluginData pd "originalText")

def scanW (k : String) : Prop := k = "originalText" ∨ k = "nodeKey"

def prevW (k : String) : Prop := k = "originalText"

def OptionRel (R : PData → PData → Prop) : Option PData → Option PData → Prop
  | some a, some b => R a b
  | none, none => True
  | _, _ => False

theorem pdRel_refl (w : String → Prop) (pd : PData) : PdRel w pd pd :=
  ⟨fun _ _ => rfl, fun _ => rfl⟩

theorem pdRel_scanPd (anc : List Ancestor) (ch : String) (pd : PData) :
    PdRel scanW pd (scanPd anc ch pd) := by
  constructor
  · intro k hk
    have h1 : k ≠ "originalText" := fun h => hk (Or.inl h)
    have h2 : k ≠ "nodeKey" := fun h => hk (Or.inr h)
    unfold scanPd
    by_cases h : getPluginData pd "originalText" = "" <;>
      simp [h, getPluginData_set_ne _ _ _ _ h2, getPluginData_set_ne _ _ _ _ h1]
  · intro ho
    unfold scanPd
    simp [if_neg ho,
      getPluginData_set_ne _ _ _ _ (show "originalText" ≠ "nodeKey" by decide)]

theorem pdRel_previewPd (ch : String) (pd : PData) :
    PdRel prevW pd (previewPd ch pd) := by
  constructor
  · intro k hk
    unfold previewPd
    by_cases h : getPluginData pd "originalText" = "" <;>
      simp [h, getPluginData_set_ne _ _ _ _ hk]
  · intro ho
    unfold previewPd
    simp [if_neg ho]

/-! ## Lifting `PdRel` through the page traversals, by id lookup -/

mutual
theorem scanRel_N (sel : List Nat) (anc : List Ancestor) (inSel : Bool)
    (n : SceneNode) (i : Nat) :
    OptionRel (PdRel scanW) (lookupPdN n i)
      (lookupPdN (scanSelNode sel anc inSel n) i) := by
  cases n with
  | text j nm v ch pd =>
    simp only [scanSelNode]
    split <;> by_cases hj : j = i <;>
      simp [lookupPdN, hj, OptionRel, pdRel_scanPd, pdRel_refl]
  | container j t nm v pd cs =>
    by_cases hj : j = i
    · simp [scanSelNode, lookupPdN, hj, OptionRel, pdRel_refl]
    · simpa [scanSelNode, lookupPdN, hj] using
        scanRel_F sel (Ancestor.cont t nm :: anc) ((inSel || sel.contains j) && v) cs i
theorem scanRel_F (sel : List Nat) (anc : List Ancestor) (inSel : Bool)
    (f : SceneForest) (i : Nat) :
    OptionRel (PdRel scanW) (lookupPdF f i)
      (lookupPdF (scanSelForest sel anc inSel f) i) := by
  cases f with
  | nil => simp [scanSelForest, lookupPdF, OptionRel]
  | cons h t =>
    have relN := scanRel_N sel anc inSel h i
    have relF := scanRel_F sel anc inSel t i
    simp only [scanSelForest, lookupPdF]
    cases hN : lookupPdN h i <;>
      cases hN' : lookupPdN (scanSelNode sel anc inSel h) i <;>
        rw [hN, hN'] at relN <;> simp_all [OptionRel]
end

mutual
theorem previewRel_N (i0 : Nat) (txt : String) (n : SceneNode) (i : Nat) :
    OptionRel (PdRel prevW) (lookupPdN n i)
      (lookupPdN (previewNodeOne i0 txt n) i) := by
  cases n with
  | text j nm v ch pd =>
    by_cases hj : j = i
    · subst hj
      by_cases h0 : j = i0
      · subst h0
        simp [previewNodeOne, lookupPdN, OptionRel, pdRel_previewPd]
      · simp [previewNodeOne, lookupPdN, h0, OptionRel, pdRel_refl]
    · by_cases h0 : j = i0
      · subst h0
        simp [previewNodeOne, lookupPdN, hj, OptionRel]
      · simp [previewNodeOne, lookupPdN, h0, hj, OptionRel]
  | container j t nm v pd cs =>
    by_cases hj : j = i
    · simp [previewNodeOne, lookupPdN, hj, OptionRel, pdRel_refl]
    · simpa [previewNodeOne, lookupPdN, hj] using previewRel_F i0 txt cs i
theorem previewRel_F (i0 : Nat) (txt : String) (f : SceneForest) (i : Nat) :
    OptionRel (PdRel prevW) (lookupPdF f i)
      (lookupPdF (previewForestOne i0 txt f) i) := by
  cases f with
  | nil => simp [previewForestOne, lookupPdF, OptionRel]
  | cons h t =>
    have relN := previewRel_N i0 txt h i
    have relF := previewRel_F i0 txt t i
    simp only [previewForestOne, lookupPdF]
    cases hN : lookupPdN h i <;>
      cases hN' : lookupPdN (previewNodeOne i0 txt h) i <;>
        rw [hN, hN'] at relN <;> simp_all [OptionRel]
end

/-! ## Extracting key facts from an `OptionRel` -/

theorem getPdKeyEq_of_optionRel {w : String → Prop} {o1 o2 : Option PData}
    (h : OptionRel (PdRel w) o1 o2) (k : String) (hk : ¬ w k) :
    o2.map (fun pd => getPluginData pd k) = o1.map (fun pd => getPluginData pd k) := by
  cases o1 <;> cases o2 <;> simp_all [OptionRel]
  exact h.1 k hk

theorem getOrigPres_of_optionRel {w : String → Prop} {o1 o2 : Option PData}
    (h : OptionRel (PdRel w) o1 o2) (o : String)
    (h1 : o1.map (fun pd => getPluginData pd "originalText") = some o) (ho : o ≠ "") :
    o2.map (fun pd => getPluginData pd "originalText") = some o := by
  cases o1 with
  | none => simp at h1
  | some pd =>
    cases o2 with
    | none => simp_all [OptionRel]
    | some pd' =>
      simp only [Option.map_some'] at h1 ⊢
      have hrel : PdRel w pd pd' := h
      have hne : getPluginData pd "originalText" ≠ "" := by
        intro hc
        apply ho
        injection h1 with h1'
        rw [← h1', hc]
      rw [hrel.2 hne]
      exact h1

/-! ## The by-id writers: an exact lookup equation -/

mutual
theorem setPdById_lookup_N (i0 : Nat) (k v : String) (n : SceneNode) (i : Nat) :
    lookupPdN (setPdByIdN i0 k v n) i =
      if i = i0 then (lookupPdN n i).map (fun pd => setPluginData pd k v)
      else lookupPdN n i := by
  cases n with
  | text j nm vis ch pd =>
    by_cases hj : j = i
    · subst hj
      by_cases h0 : j = i0
      · subst h0
        simp [setPdByIdN, lookupPdN]
      · simp [setPdByIdN, lookupPdN, h0, fun h => h0 (id h : j = i0)]
    · by_cases h0 : j = i0
      · subst h0
        have hi : ¬ i = j := fun h => hj h.symm
        simp [setPdByIdN, lookupPdN, hj, hi]
      · simp [setPdByIdN, lookupPdN, h0, hj]
  | container j t nm vis pd cs =>
    have ih := setPdById_lookup_F i0 k v cs i
    by_cases hj : j = i
    · subst hj
      by_cases h0 : j = i0
      · subst h0
        simp [setPdByIdN, lookupPdN]
      · simp [setPdByIdN, lookupPdN, h0, fun h => h0 (id h : j = i0)]
    · by_cases h0 : j = i0
      · subst h0
        have hi : ¬ i = j := fun h => hj h.symm
        simp [setPdByIdN, lookupPdN, hj, hi, ih]
      · simp [setPdByIdN, lookupPdN, h0, hj, ih]
theorem setPdById_lookup_F (i0 : Nat) (k v : String) (f : SceneForest) (i : Nat) :
    lookupPdF (setPdByIdF i0 k v f) i =
      if i = i0 then (lookupPdF f i).map (fun pd => setPluginData pd k v)
      else lookupPdF f i := by
  cases f with
  | nil => simp [setPdByIdF, lookupPdF]
  | cons h t =>
    have ihN := setPdById_lookup_N i0 k v h i
    have ihF := setPdById_lookup_F i0 k v t i
    by_cases hi : i = i0
    · simp only [hi] at ihN ihF ⊢
      simp only [setPdByIdF, lookupPdF, ihN, ihF, if_pos rfl]
      cases lookupPdN h i0 <;> simp
    · simp only [setPdByIdF, lookupPdF, ihN, ihF, if_neg hi]
end

theorem setPdById_key_eq (i0 : Nat) (k0 v0 : String) (f : SceneForest) (i : Nat)
    (k : String) (hk : k ≠ k0) :
    getPdKey (setPdByIdF i0 k0 v0 f) i k = getPdKey f i k := by
  unfold getPdKey
  rw [setPdById_lookup_F]
  by_cases hi : i = i0
  · rw [if_pos hi]
    cases lookupPdF f i <;> simp [getPluginData_set_ne _ _ _ _ hk]
  · rw [if_neg hi]

/-! ## Per-operation key facts at the `getPdKey` level -/

theorem scan_key_eq (sel : List Nat) (anc : List Ancestor) (inSel : Bool)
    (f : SceneForest) (i : Nat) (k : String)
    (h1 : k ≠ "originalText") (h2 : k ≠ "nodeKey") :
    getPdKey (scanSelForest sel anc inSel f) i k = getPdKey f i k :=
  getPdKeyEq_of_optionRel (scanRel_F sel anc inSel f i) k
    (fun hw => hw.elim (fun h => h1 h) (fun h => h2 h))

theorem scanSelection_key_eq (sel : List Nat) (f : SceneForest) (i : Nat) (k : String)
    (h1 : k ≠ "originalText") (h2 : k ≠ "nodeKey") :
    getPdKey (scanSelection sel f) i k = getPdKey f i k := by
  unfold scanSelection
  split <;> exact scan_key_eq _ _ _ _ _ _ h1 h2

theorem scan_orig_pres (sel : List Nat) (anc : List Ancestor) (inSel : Bool)
    (f : SceneForest) (i : Nat) (o : String)
    (h : getPdKey f i "originalText" = some o) (ho : o ≠ "") :
    getPdKey (scanSelForest sel anc inSel f) i "originalText" = some o :=
  getOrigPres_of_optionRel (scanRel_F sel anc inSel f i) o h ho

theorem scanSelection_orig_pres (sel : List Nat) (f : SceneForest) (i : Nat) (o : String)
    (h : getPdKey f i "originalText" = some o) (ho : o ≠ "") :
    getPdKey (scanSelection sel f) i "originalText" = some o := by
  unfold scanSelection
  split <;> exact scan_orig_pres _ _ _ _ _ _ h ho

theorem preview_key_eq (items : List Item) (f : SceneForest) (i : Nat) (k : String)
    (h1 : k ≠ "originalText") :
    getPdKey (handlePreviewTranslation items f) i k = getPdKey f i k := by
  induction items generalizing f with
  | nil => rfl
  | cons it rest ih =>
    have step : getPdKey (previewForestOne it.id it.translatedText f) i k = getPdKey f i k :=
      getPdKeyEq_of_optionRel (previewRel_F it.id it.translatedText f i) k
        (fun hw => h1 hw)
    calc getPdKey (handlePreviewTranslation (it :: rest) f) i k
        = getPdKey (handlePreviewTranslation rest (previewForestOne it.id it.translatedText f)) i k := rfl
      _ = getPdKey (previewForestOne it.id it.translatedText f) i k := ih _
      _ = getPdKey f i k := step

theorem preview_orig_pres (items : List Item) (f : SceneForest) (i : Nat) (o : String)
    (h : getPdKey f i "originalText" = some o) (ho : o ≠ "") :
    getPdKey (handlePreviewTranslation items f) i "originalText" = some o := by
  induction items generalizing f with
  | nil => exact h
  | cons it rest ih =>
    exact ih _
      (getOrigPres_of_optionRel (previewRel_F it.id it.translatedText f i) o h ho)

theorem store_key_eq (data : List (String × List (Nat × String))) (f : SceneForest)
    (i : Nat) (k : String) (hk : ∀ lang, k ≠ translationKey lang) :
    getPdKey (handleStoreTranslations data f) i k = getPdKey f i k := by
  induction data generalizing f with
  | nil => rfl
  | cons entry rest ih =>
    have inner : ∀ (es : List (Nat × String)) (g : SceneForest),
        getPdKey
          (es.foldl (fun acc2 e => setPdByIdF e.1 (translationKey entry.1) e.2 acc2) g)
          i k = getPdKey g i k := by
      intro es
      induction es with
      | nil => intro g; rfl
      | cons e tail ih2 =>
        intro g
        rw [List.foldl_cons, ih2, setPdById_key_eq _ _ _ _ _ _ (hk entry.1)]
    calc getPdKey (handleStoreTranslations (entry :: rest) f) i k
        = getPdKey (handleStoreTranslations rest
            (entry.2.foldl (fun acc2 e => setPdByIdF e.1 (translationKey entry.1) e.2 acc2) f)) i k := rfl
      _ = getPdKey (entry.2.foldl (fun acc2 e => setPdByIdF e.1 (translationKey entry.1) e.2 acc2) f) i k := ih _
      _ = getPdKey f i k := inner entry.2 f

theorem updateManual_flag_mono (j : Nat) (lang txt : String) (f : SceneForest)
    (i : Nat) (l : String)
    (h : getPdKey f i (manualKey l) = some "true") :
    getPdKey (handleUpdateManualTranslation j lang txt f) i (manualKey l) = some "true" := by
  have h1 : getPdKey (setPdByIdF j (translationKey lang) txt f) i (manualKey l) = some "true" := by
    rw [setPdById_key_eq _ _ _ _ _ _ (manualKey_ne_translationKey l lang)]
    exact h
  unfold handleUpdateManualTranslation
  by_cases hl : lang = l
  · subst hl
    unfold getPdKey at h1 ⊢
    rw [setPdById_lookup_F]
    by_cases hi : i = j
    · rw [if_pos hi]
      cases hx : lookupPdF (setPdByIdF j (translationKey lang) txt f) i with
      | none => rw [hx] at h1; simp at h1
      | some pd => simp [getPluginData_set_same]
    · rw [if_neg hi]
      exact h1
  · rw [setPdById_key_eq _ _ _ _ _ _ (fun he => hl (manualKey_inj he).symm)]
    exact h1

theorem updateManual_sets_flag (j : Nat) (lang txt : String) (f : SceneForest)
    (pd : PData) (h : lookupPdF f j = some pd) :
    getPdKey (handleUpdateManualTranslation j lang txt f) j (manualKey lang) = some "true" := by
  unfold handleUpdateManualTranslation getPdKey
  rw [setPdById_lookup_F, if_pos rfl, setPdById_lookup_F, if_pos rfl, h]
  simp [getPluginData_set_same]

theorem apply_page_eq (page : SceneForest) (sel : List SceneNode) (ts : List Item)
    (lang : String) : (handleApplyTranslation page sel ts lang).page = page := by
  unfold handleApplyTranslation
  split <;> rfl

/-! ## The manual flag across operation sequences -/

theorem runOp_flag_eq (f : SceneForest) (op : Op) (i : Nat) (l : String)
    (hop : isUpdateManual op = false) :
    getPdKey (runOp f op) i (manualKey l) = getPdKey f i (manualKey l) := by
  cases op with
  | scanOp sel =>
    exact scanSelection_key_eq sel f i _ (manualKey_ne_originalText l) (manualKey_ne_nodeKey l)
  | previewOp items =>
    exact preview_key_eq items f i _ (manualKey_ne_originalText l)
  | storeOp data =>
    exact store_key_eq data f i _ (fun lang => manualKey_ne_translationKey l lang)
  | updateManualOp j lang txt => simp [isUpdateManual] at hop
  | applyOp sel ts lang =>
    show getPdKey (handleApplyTranslation f sel ts lang).page i (manualKey l) = _
    rw [apply_page_eq]

theorem runOp_flag_mono (f : SceneForest) (op : Op) (i : Nat) (l : String)
    (h : getPdKey f i (manualKey l) = some "true") :
    getPdKey (runOp f op) i (manualKey l) = some "true" := by
  cases hu : isUpdateManual op with
  | false => rw [runOp_flag_eq f op i l hu]; exact h
  | true =>
    cases op with
    | updateManualOp j lang txt => exact updateManual_flag_mono j lang txt f i l h
    | scanOp sel => simp [isUpdateManual] at hu
    | previewOp items => simp [isUpdateManual] at hu
    | storeOp data => simp [isUpdateManual] at hu
    | applyOp sel ts lang => simp [isUpdateManual] at hu

theorem runOps_flag_mono (ops : List Op) (f : SceneForest) (i : Nat) (l : String)
    (h : getPdKey f i (manualKey l) = some "true") :
    getPdKey (runOps f ops) i (manualKey l) = some "true" := by
  induction ops generalizing f with
  | nil => exact h
  | cons op rest ih => exact ih _ (runOp_flag_mono f op i l h)

/-! ## Capturing originalText when absent -/

theorem scanPd_captures (anc : List Ancestor) (ch : String) (pd : PData)
    (h : getPluginData pd "originalText" = "") :
    getPluginData (scanPd anc ch pd) "originalText" = ch := by
  simp only [scanPd, if_pos h]
  rw [getPluginData_set_ne _ _ _ _ (show "originalText" ≠ "nodeKey" by decide),
    getPluginData_set_same]

theorem previewPd_captures (ch : String) (pd : PData)
    (h : getPluginData pd "originalText" = "") :
    getPluginData (previewPd ch pd) "originalText" = ch := by
  simp only [previewPd, if_pos h]
  rw [getPluginData_set_same]

/-! ## revert: a leaf-level characterization, idempotence, untouched metadata -/

def revertedLeaf : Nat × String × PData → Nat × String × PData
  | (i, ch, pd) =>
    (i,
      (if getPluginData pd "originalText" = "" then ch
        else getPluginData pd "originalText"),
      pd)

mutual
theorem revert_leaves_N (n : SceneNode) :
    textLeavesN (revertNode n) = (textLeavesN n).map revertedLeaf := by
  cases n with
  | text i nm v ch pd =>
    by_cases h : getPluginData pd "originalText" = "" <;>
      simp [revertNode, textLeavesN, revertedLeaf, h]
  | container i t nm v pd cs =>
    simpa [revertNode, textLeavesN] using revert_leaves_F cs
theorem revert_leaves_F (f : SceneForest) :
    textLeavesF (revertForest f) = (textLeavesF f).map revertedLeaf := by
  cases f with
  | nil => simp [revertForest, textLeavesF]
  | cons h t =>
    simp [revertForest, textLeavesF, revert_leaves_N h, revert_leaves_F t]
end

mutual
theorem revert_idem_N (n : SceneNode) : revertNode (revertNode n) = revertNode n := by
  cases n with
  | text i nm v ch pd =>
    by_cases h : getPluginData pd "originalText" = "" <;> simp [revertNode, h]
  | container i t nm v pd cs => simp [revertNode, revert_idem_F cs]
theorem revert_idem_F (f : SceneForest) : revertForest (revertForest f) = revertForest f := by
  cases f with
  | nil => rfl
  | cons h t => simp [revertForest, revert_idem_N h, revert_idem_F t]
end

mutual
theorem revert_pdata_N (n : SceneNode) : allPDataN (revertNode n) = allPDataN n := by
  cases n with
  | text i nm v ch pd =>
    by_cases h : getPluginData pd "originalText" = "" <;> simp [revertNode, allPDataN, h]
  | container i t nm v pd cs => simp [revertNode, allPDataN, revert_pdata_F cs]
theorem revert_pdata_F (f : SceneForest) : allPDataF (revertForest f) = allPDataF f := by
  cases f with
  | nil => rfl
  | cons h t => simp [revertForest, allPDataF, revert_pdata_N h, revert_pdata_F t]
end

/-! ## clear: every node's data wiped, characters untouched -/

mutual
theorem clear_pdata_N (n : SceneNode) :
    allPDataN (clearNode n) = (allPDataN n).map clearPd := by
  cases n with
  | text i nm v ch pd => simp [clearNode, allPDataN]
  | container i t nm v pd cs => simp [clearNode, allPDataN, clear_pdata_F cs]
theorem clear_pdata_F (f : SceneForest) :
    allPDataF (clearForest f) = (allPDataF f).map clearPd := by
  cases f with
  | nil => rfl
  | cons h t => simp [clearForest, allPDataF, clear_pdata_N h, clear_pdata_F t]
end

mutual
theorem clear_leaves_N (n : SceneNode) :
    textLeavesN (clearNode n) =
      (textLeavesN n).map (fun x => (x.1, x.2.1, clearPd x.2.2)) := by
  cases n with
  | text i nm v ch pd => simp [clearNode, textLeavesN]
  | container i t nm v pd cs => simpa [clearNode, textLeavesN] using clear_leaves_F cs
theorem clear_leaves_F (f : SceneForest) :
    textLeavesF (clearForest f) =
      (textLeavesF f).map (fun x => (x.1, x.2.1, clearPd x.2.2)) := by
  cases f with
  | nil => rfl
  | cons h t => simp [clearForest, textLeavesF, clear_leaves_N h, clear_leaves_F t]
end

theorem clearPd_resets (pd : PData) (k : String) (hk : k ∈ clearedKeys) :
    getPluginData (clearPd pd) k = "" := by
  fin_cases hk <;> rfl

/-! ## apply: the clone's text leaves, pointwise -/

def appliedLeaf (page : SceneForest) (ts : List Item) (lang : String) :
    Nat × String × PData → Nat × String × PData
  | (i, ch, pd) =>
    (i, (applyTextData page ts lang ch pd).1, (applyTextData page ts lang ch pd).2)

mutual
theorem applyClone_leaves_N (page : SceneForest) (ts : List Item) (lang : String)
    (n : SceneNode) :
    textLeavesN (applyCloneNode page ts lang n) =
      (textLeavesN n).map (appliedLeaf page ts lang) := by
  cases n with
  | text i nm v ch pd => simp [applyCloneNode, textLeavesN, appliedLeaf]
  | container i t nm v pd cs =>
    simpa [applyCloneNode, textLeavesN] using applyClone_leaves_F page ts lang cs
theorem applyClone_leaves_F (page : SceneForest) (ts : List Item) (lang : String)
    (f : SceneForest) :
    textLeavesF (applyCloneForest page ts lang f) =
      (textLeavesF f).map (appliedLeaf page ts lang) := by
  cases f with
  | nil => rfl
  | cons h t =>
    simp [applyCloneForest, textLeavesF, applyClone_leaves_N page ts lang h,
      applyClone_leaves_F page ts lang t]
end

theorem rename_leaves (lang : String) (n : SceneNode) :
    textLeavesN (renameForLang lang n) = textLeavesN n := by
  cases n <;> rfl

/-! ## `find?` returns the earliest satisfying element -/

theorem find?_earliest {α : Type} (p : α → Bool) (ts : List α) (t : α)
    (h : ts.find? p = some t) :
    ∃ j, ts.get? j = some t ∧ p t = true ∧
      ∀ k u, k < j → ts.get? k = some u → p u = false := by
  induction ts with
  | nil => simp [List.find?] at h
  | cons a rest ih =>
    cases hp : p a with
    | true =>
      rw [List.find?_cons_of_pos _ hp] at h
      injection h with he
      subst he
      exact ⟨0, rfl, hp, fun k u hk _ => absurd hk (Nat.not_lt_zero k)⟩
    | false =>
      rw [List.find?_cons_of_neg _ (by simp [hp])] at h
      obtain ⟨j, hj, hpt, hmin⟩ := ih h
      refine ⟨j + 1, hj, hpt, ?_⟩
      intro k u hk hku
      cases k with
      | zero =>
        injection hku with hku
        subst hku
        exact hp
      | succ k' => exact hmin k' u (Nat.lt_of_succ_lt_succ hk) hku

/-! ## splitOnDot / joinDots -/

theorem splitCons_ne_nil (c : Char) (ls : List (List Char)) : splitCons c ls ≠ [] := by
  cases ls with
  | nil => simp [splitCons]
  | cons s ss => by_cases h : c = '.' <;> simp [splitCons, h]

theorem splitOnDot_ne_nil (l : List Char) : splitOnDot l ≠ [] := by
  cases l with
  | nil => simp [splitOnDot]
  | cons c rest => exact splitCons_ne_nil c (splitOnDot rest)

theorem splitOnDot_no_dot (l : List Char) : ∀ seg ∈ splitOnDot l, ('.' : Char) ∉ seg := by
  induction l with
  | nil =>
    intro seg hseg
    simp [splitOnDot] at hseg
    simp [hseg]
  | cons c rest ih =>
    intro seg hseg
    rw [splitOnDot] at hseg
    cases hsp : splitOnDot rest with
    | nil => exact absurd hsp (splitOnDot_ne_nil rest)
    | cons s ss =>
      rw [hsp] at hseg
      have hs : ('.' : Char) ∉ s := ih s (by rw [hsp]; exact List.mem_cons_self s ss)
      by_cases hc : c = '.'
      · rw [splitCons, if_pos hc] at hseg
        rcases List.mem_cons.mp hseg with he | hm
        · simp [he]
        · exact ih seg (by rw [hsp]; exact hm)
      · rw [splitCons, if_neg hc] at hseg
        rcases List.mem_cons.mp hseg with he | hm
        · subst he
          intro hmem
          rcases List.mem_cons.mp hmem with he2 | hm2
          · exact hc he2.symm
          · exact hs hm2
        · exact ih seg (by rw [hsp]; exact List.mem_cons_of_mem s hm)

theorem splitOnDot_noDot (l : List Char) (h : ('.' : Char) ∉ l) : splitOnDot l = [l] := by
  induction l with
  | nil => rfl
  | cons c rest ih =>
    have hc : ¬ c = '.' := fun he => h (he ▸ List.mem_cons_self c rest)
    have h2 : ('.' : Char) ∉ rest := fun hm => h (List.mem_cons_of_mem c hm)
    rw [splitOnDot, ih h2, splitCons, if_neg hc]

theorem splitOnDot_append_dot (s t : List Char) (h : ('.' : Char) ∉ s) :
    splitOnDot (s ++ '.' :: t) = s :: splitOnDot t := by
  induction s with
  | nil =>
    rw [List.nil_append, splitOnDot]
    cases hsp : splitOnDot t with
    | nil => exact absurd hsp (splitOnDot_ne_nil t)
    | cons s2 ss => rw [splitCons, if_pos rfl]
  | cons c s' ih =>
    have hc : ¬ c = '.' := fun he => h (he ▸ List.mem_cons_self c s')
    have h2 : ('.' : Char) ∉ s' := fun hm => h (List.mem_cons_of_mem c hm)
    rw [List.cons_append, splitOnDot, ih h2, splitCons, if_neg hc]

theorem splitOnDot_join (segs : List (List Char)) (hne : segs ≠ [])
    (hdot : ∀ seg ∈ segs, ('.' : Char) ∉ seg) :
    splitOnDot (joinDots segs) = segs := by
  induction segs with
  | nil => exact absurd rfl hne
  | cons s rest ih =>
    cases rest with
    | nil => exact splitOnDot_noDot s (hdot s (List.mem_cons_self s []))
    | cons s2 rest2 =>
      have hj : joinDots (s :: s2 :: rest2) = s ++ '.' :: joinDots (s2 :: rest2) := rfl
      rw [hj, splitOnDot_append_dot s _ (hdot s (List.mem_cons_self s _)),
        ih (by simp) (fun seg hseg => hdot seg (List.mem_cons_of_mem s hseg))]

/-! ## The hyphen-trim step of slugify is a no-op after the collapse step -/

theorem replaceRuns_no_hyphen (l : List Char) :
    ∀ b, ('-' : Char) ∉ replaceRunsAux isCollapseChar b l := by
  induction l with
  | nil => intro b; simp [replaceRunsAux]
  | cons c rest ih =>
    intro b
    by_cases hc : isCollapseChar c
    · cases b <;>
        simp [replaceRunsAux, hc, ih, show ('-' : Char) ≠ '.' by decide]
    · have hnc : ¬ ('-' : Char) = c := fun h => hc (by rw [← h]; decide)
      simp [replaceRunsAux, hc, ih, hnc]

theorem dropWhile_hyphen_eq_self (l : List Char) (h : ('-' : Char) ∉ l) :
    l.dropWhile (fun c => c == '-') = l := by
  cases l with
  | nil => rfl
  | cons c rest =>
    have hc : ¬ c = '-' := fun he => h (he ▸ List.mem_cons_self c rest)
    simp [List.dropWhile_cons, hc]

theorem trimHyphens_noop (l : List Char) (h : ('-' : Char) ∉ l) : trimHyphens l = l := by
  unfold trimHyphens
  rw [dropWhile_hyphen_eq_self l h,
    dropWhile_hyphen_eq_self l.reverse (fun hm => h (List.mem_reverse.mp hm)),
    List.reverse_reverse]

theorem trimHyphens_replaceRuns (l : List Char) :
    trimHyphens (replaceRuns isCollapseChar l) = replaceRuns isCollapseChar l :=
  trimHyphens_noop _ (replaceRuns_no_hyphen l false)

/-! ## slugify produces at most three dot-separated segments -/

theorem slugifyL_segments_le (l : List Char) : (splitOnDot (slugifyL l)).length ≤ 3 := by
  unfold slugifyL
  have hne : (splitOnDot
      (trimHyphens (replaceRuns isCollapseChar
        ((l.map Char.toLower).filter isKeptChar)))).take 3 ≠ [] := by
    cases hsp :
        splitOnDot
          (trimHyphens (replaceRuns isCollapseChar
            ((l.map Char.toLower).filter isKeptChar)))
        with
    | nil => exact absurd hsp (splitOnDot_ne_nil _)
    | cons s ss => simp
  have hdots : ∀ seg ∈ (splitOnDot
      (trimHyphens (replaceRuns isCollapseChar
        ((l.map Char.toLower).filter isKeptChar)))).take 3, ('.' : Char) ∉ seg :=
    fun seg hseg => splitOnDot_no_dot _ seg (List.mem_of_mem_take hseg)
  rw [splitOnDot_join _ hne hdots]
  exact List.length_take_le 3 _

/-! ## screenAux computes the outermost boundary name -/

theorem screenAux_spec (anc : List Ancestor) : ∀ acc,
    screenAux anc acc = ((boundariesBeforePage anc).getLast?).getD acc := by
  induction anc with
  | nil => intro acc; rfl
  | cons a rest ih =>
    intro acc
    cases a with
    | page => rfl
    | cont t n =>
      by_cases ht : isBoundary t
      · simp only [screenAux, boundariesBeforePage, ht, if_true, ih n,
          List.singleton_append, List.getLast?_cons]
        simp
      · simp only [screenAux, boundariesBeforePage, ht, if_false, List.nil_append]
        exact ih acc

/-! # Claim theorems -/

/-- Claim C1: originalText is write-once under the automated flows.  A stored
non-empty `originalText` survives any scan traversal (whatever the selection,
ancestry and traversal state) and any preview; the per-leaf scan and preview
updates capture the leaf's current text exactly when no value is stored; and
in the concrete scan → preview("Envoyer") → scan scenario on the demo page
the stored value still equals the "Submit" captured at the first scan. -/
theorem C1_originalText_write_once :
    (∀ (sel : List Nat) (anc : List Ancestor) (inSel : Bool) (f : SceneForest)
        (i : Nat) (o : String),
      getPdKey f i "originalText" = some o → o ≠ "" →
        getPdKey (scanSelForest sel anc inSel f) i "originalText" = some o)
    ∧ (∀ (items : List Item) (f : SceneForest) (i : Nat) (o : String),
      getPdKey f i "originalText" = some o → o ≠ "" →
        getPdKey (handlePreviewTranslation items f) i "originalText" = some o)
    ∧ (∀ (anc : List Ancestor) (ch : String) (pd : PData),
      getPluginData pd "originalText" = "" →
        getPluginData (scanPd anc ch pd) "originalText" = ch)
    ∧ (∀ (ch : String) (pd : PData),
      getPluginData pd "originalText" = "" →
        getPluginData (previewPd ch pd) "originalText" = ch)
    ∧ getPdKey (scanSelection [] demoPage) 10 "originalText" = some "Submit"
    ∧ getPdKey
        (scanSelection []
          (handlePreviewTranslation [⟨10, "Envoyer"⟩] (scanSelection [] demoPage)))
        10 "originalText" = some "Submit" :=
  ⟨fun sel anc inSel f i o h ho => scan_orig_pres sel anc inSel f i o h ho,
    fun items f i o h ho => preview_orig_pres items f i o h ho,
    scanPd_captures, previewPd_captures, by decide, by decide⟩

/-- Claim C2: revert is idempotent and non-destructive.  After one revert,
every text leaf carrying a non-empty stored `originalText` shows exactly that
text; a second revert changes nothing at all; and no node's plugin data is
touched. -/
theorem C2_revert_idempotent :
    (∀ (f : SceneForest) (i : Nat) (ch : String) (pd : PData),
      (i, ch, pd) ∈ textLeavesF (handleRevertPreview f) →
        getPluginData pd "originalText" ≠ "" →
          ch = getPluginData pd "originalText")
    ∧ (∀ f : SceneForest,
      handleRevertPreview (handleRevertPreview f) = handleRevertPreview f)
    ∧ (∀ f : SceneForest, allPDataF (handleRevertPreview f) = allPDataF f) := by
  refine ⟨?_, revert_idem_F, revert_pdata_F⟩
  intro f i ch pd hmem hne
  rw [show handleRevertPreview f = revertForest f from rfl, revert_leaves_F] at hmem
  obtain ⟨⟨i0, ch0, pd0⟩, _, heq⟩ := List.mem_map.mp hmem
  simp only [revertedLeaf] at heq
  injection heq with ha hb
  injection hb with hb1 hb2
  subst hb2
  rw [← hb1, if_neg hne]

/-- Claim C3: apply writes the translation on the duplicate, not the original.
The text leaves of a processed clone are exactly the input leaves transformed
pointwise; a clone leaf whose inherited `nodeKey` is non-empty and matched by
a provided item has its characters overwritten with the item's text and
`translation-<language>` persisted on the clone leaf itself; an unmatched
leaf (empty key or no matching item) is untouched; and the handler returns
the page of originals unchanged, the processed clones being produced as new
values. -/
theorem C3_apply_targets_duplicate :
    (∀ (page : SceneForest) (ts : List Item) (lang : String) (n : SceneNode),
      textLeavesN (applyCloneNode page ts lang n)
        = (textLeavesN n).map (appliedLeaf page ts lang))
    ∧ (∀ (page : SceneForest) (ts : List Item) (lang : String) (n : SceneNode)
        (i : Nat) (ch : String) (pd : PData) (t : Item),
      (i, ch, pd) ∈ textLeavesN n →
      getPluginData pd "nodeKey" ≠ "" →
      firstMatch page ts (getPluginData pd "nodeKey") = some t →
        (i, t.translatedText, setPluginData pd (translationKey lang) t.translatedText)
          ∈ textLeavesN (applyCloneNode page ts lang n))
    ∧ (∀ (page : SceneForest) (ts : List Item) (lang : String) (n : SceneNode)
        (i : Nat) (ch : String) (pd : PData),
      (i, ch, pd) ∈ textLeavesN n →
      (getPluginData pd "nodeKey" = ""
        ∨ firstMatch page ts (getPluginData pd "nodeKey") = none) →
        (i, ch, pd) ∈ textLeavesN (applyCloneNode page ts lang n))
    ∧ (∀ (page : SceneForest) (sel : List SceneNode) (ts : List Item) (lang : String),
      (handleApplyTranslation page sel ts lang).page = page)
    ∧ (∀ (page : SceneForest) (sel : List SceneNode) (ts : List Item) (lang : String),
      sel ≠ [] →
        (handleApplyTranslation page sel ts lang).clones
          = sel.map (fun n => applyCloneNode page ts lang (renameForLang lang n))) := by
  refine ⟨applyClone_leaves_N, ?_, ?_, apply_page_eq, ?_⟩
  · intro page ts lang n i ch pd t hmem hkey hfirst
    rw [applyClone_leaves_N]
    have he : appliedLeaf page ts lang (i, ch, pd)
        = (i, t.translatedText, setPluginData pd (translationKey lang) t.translatedText) := by
      simp only [appliedLeaf, applyTextData, if_neg hkey, hfirst]
    exact he ▸ List.mem_map_of_mem _ hmem
  · intro page ts lang n i ch pd hmem hcase
    rw [applyClone_leaves_N]
    have he : appliedLeaf page ts lang (i, ch, pd) = (i, ch, pd) := by
      rcases hcase with hk | hn
      · simp only [appliedLeaf, applyTextData, if_pos hk]
      · by_cases hk : getPluginData pd "nodeKey" = ""
        · simp only [appliedLeaf, applyTextData, if_pos hk]
        · simp only [appliedLeaf, applyTextData, if_neg hk, hn]
    exact he ▸ List.mem_map_of_mem _ hmem
  · intro page sel ts lang hsel
    unfold handleApplyTranslation
    rw [if_neg (by simpa [List.isEmpty_iff] using hsel)]

/-- Claim C4: clearStorage wipes every stored field of every node reachable
from the page root — text leaves and containers, visible or not, the handler
taking no selection at all — down to the empty-string sentinel, and leaves
every leaf's visible characters unchanged. -/
theorem C4_clearStorage_wipes :
    (∀ (f : SceneForest) (pd : PData), pd ∈ allPDataF (handleClearStorage f) →
      ∀ k ∈ clearedKeys, getPluginData pd k = "")
    ∧ (∀ f : SceneForest,
      (textLeavesF (handleClearStorage f)).map (fun x => (x.1, x.2.1))
        = (textLeavesF f).map (fun x => (x.1, x.2.1))) := by
  constructor
  · intro f pd hmem k hk
    rw [show handleClearStorage f = clearForest f from rfl, clear_pdata_F] at hmem
    obtain ⟨pd0, _, heq⟩ := List.mem_map.mp hmem
    rw [← heq]
    exact clearPd_resets pd0 k hk
  · intro f
    rw [show handleClearStorage f = clearForest f from rfl, clear_leaves_F,
      List.map_map]
    rfl

/-- Claim C5 (counterexample): the claim says slugify trims leading/trailing
dots and keeps only non-empty segments, so its output would never begin with
a dot; but the source trims hyphens (not dots) and `slice(0, 3)` keeps empty
segments, so on " a b c" the code yields ".a.b" while the claimed algorithm
yields "a.b.c". -/
theorem C5_slugify_counterexample :
    slugify " a b c" = ".a.b" ∧ slugifySpec " a b c" = "a.b.c"
      ∧ (".a.b" : String) ≠ "a.b.c" :=
  ⟨by decide, by decide, by decide⟩

/-- Claim C5 (amended): slugify lowercases, strips characters that are not
word characters, whitespace or hyphen, collapses runs of
whitespace/underscore/hyphen into a single dot, trims leading and trailing
hyphens (a no-op at that stage, hyphens having just been collapsed away),
splits on dot, keeps at most the first 3 segments — empty segments included —
and rejoins with dot.  The example evaluates as claimed, the output never has
more than 3 dot-separated segments, but it can begin or end with a dot. -/
theorem C5_slugify_amended :
    slugify "Hello, World! This is a test" = "hello.world.this"
    ∧ (∀ l : List Char, (splitOnDot (slugifyL l)).length ≤ 3)
    ∧ (∀ l : List Char,
      trimHyphens (replaceRuns isCollapseChar l) = replaceRuns isCollapseChar l)
    ∧ slugify " a b c" = ".a.b" :=
  ⟨by decide, slugifyL_segments_le, trimHyphens_replaceRuns, by decide⟩

/-- Claim C6: the computed screen name is the name of the outermost boundary
container (frame/component/instance) strictly below the page root — not the
nearest one — lowercased with whitespace runs replaced by a dot, defaulting
to "general" when no boundary container lies on the path; in particular with
nested frames A ⊃ B ⊃ text, the screen name comes from A. -/
theorem C6_screen_outermost :
    (∀ anc : List Ancestor, getScreenName anc = screenNameSpec anc)
    ∧ getScreenName
        [Ancestor.cont ContainerType.frame "Inner B",
          Ancestor.cont ContainerType.frame "Outer A", Ancestor.page] = "outer.a"
    ∧ getScreenName [Ancestor.cont ContainerType.group "Some Group", Ancestor.page]
        = "general" := by
  refine ⟨?_, by decide, by decide⟩
  intro anc
  unfold getScreenName screenNameSpec
  rw [screenAux_spec anc "general"]

/-- Claim C7: the manual-override flag is monotone under the automated
operations.  Once `isManual-<lang>` reads "true" for an element, it still
reads "true" after any sequence of scan, preview, store, update-manual and
apply operations; every operation other than update-manual leaves the flag of
every element exactly unchanged; and update-manual raises the flag of the
targeted element to "true". -/
theorem C7_manualOverride_monotone :
    (∀ (f : SceneForest) (ops : List Op) (i : Nat) (l : String),
      getPdKey f i (manualKey l) = some "true" →
        getPdKey (runOps f ops) i (manualKey l) = some "true")
    ∧ (∀ (f : SceneForest) (op : Op) (i : Nat) (l : String),
      isUpdateManual op = false →
        getPdKey (runOp f op) i (manualKey l) = getPdKey f i (manualKey l))
    ∧ (∀ (f : SceneForest) (j : Nat) (lang txt : String) (pd : PData),
      lookupPdF f j = some pd →
        getPdKey (handleUpdateManualTranslation j lang txt f) j (manualKey lang)
          = some "true") :=
  ⟨fun f ops i l h => runOps_flag_mono ops f i l h,
    fun f op i l hop => runOp_flag_eq f op i l hop,
    fun f j lang txt pd h => updateManual_sets_flag j lang txt f pd h⟩

/-- Claim C8: apply with an empty selection is atomic and surfaced as a user
error: the handler emits exactly the error notification and returns before
any mutation — the page is unchanged, no clone is created, and nothing is
posted back. -/
theorem C8_apply_empty_selection :
    ∀ (page : SceneForest) (ts : List Item) (lang : String),
      (handleApplyTranslation page [] ts lang).page = page
      ∧ (handleApplyTranslation page [] ts lang).clones = []
      ∧ (handleApplyTranslation page [] ts lang).response = none
      ∧ (handleApplyTranslation page [] ts lang).notifications
          = [("Please select elements to duplicate.", true)] :=
  fun _ _ _ => ⟨rfl, rfl, rfl, rfl⟩

/-- Claim C9 (counterexample): an apply-translation command with an empty
selection posts no structured response at all — neither `apply-complete` nor
`apply-error` — contradicting the claim that every apply command receives
exactly one of the two. -/
theorem C9_apply_response_counterexample :
    (handleApplyTranslation SceneForest.nil [] [] "fr").response = none := rfl

/-- Claim C9 (amended): an apply-translation command with a non-empty
selection posts exactly one structured response (`apply-complete` on the
exception-free paths this embedding covers); with an empty selection the
handler posts nothing, only the user-facing error notification. -/
theorem C9_apply_response_amended :
    (∀ (page : SceneForest) (ts : List Item) (lang : String),
      (handleApplyTranslation page [] ts lang).response = none)
    ∧ (∀ (page : SceneForest) (sel : List SceneNode) (ts : List Item) (lang : String),
      sel ≠ [] →
        (handleApplyTranslation page sel ts lang).response = some ApplyMsg.complete) := by
  constructor
  · intro page ts lang
    rfl
  · intro page sel ts lang hsel
    unfold handleApplyTranslation
    rw [if_neg (by simpa [List.isEmpty_iff] using hsel)]

/-- Claim C10: when several items resolve to originals sharing one nodeKey,
apply deterministically uses the first matching item in list order: the clone
leaf's characters and its persisted `translation-<language>` both equal the
earliest matching item's text, and every earlier item in the list fails the
match. -/
theorem C10_first_match_wins :
    ∀ (page : SceneForest) (ts : List Item) (lang ch : String) (pd : PData) (t : Item),
      getPluginData pd "nodeKey" ≠ "" →
      firstMatch page ts (getPluginData pd "nodeKey") = some t →
        (applyTextData page ts lang ch pd).1 = t.translatedText
        ∧ getPluginData (applyTextData page ts lang ch pd).2 (translationKey lang)
            = t.translatedText
        ∧ ∃ j, ts.get? j = some t
            ∧ itemMatches page (getPluginData pd "nodeKey") t = true
            ∧ ∀ k u, k < j → ts.get? k = some u →
                itemMatches page (getPluginData pd "nodeKey") u = false := by
  intro page ts lang ch pd t hkey hfirst
  refine ⟨?_, ?_, ?_⟩
  · simp only [applyTextData, if_neg hkey, hfirst]
  · simp only [applyTextData, if_neg hkey, hfirst]
    rw [getPluginData_set_same]
  · exact find?_earliest _ ts t hfirst

/-- Witness for C10 at the collision page: two originals share the key
`home.button.submit`, two items match, and the first one ("Envoyer") wins. -/
theorem C10_first_match_wins_witness :
    (applyTextData collidePage [⟨1, "Envoyer"⟩, ⟨2, "Soumettre"⟩] "fr" "Submit"
        [("nodeKey", "home.button.submit")]).1 = "Envoyer"
    ∧ getPluginData
        (applyTextData collidePage [⟨1, "Envoyer"⟩, ⟨2, "Soumettre"⟩] "fr" "Submit"
          [("nodeKey", "home.button.submit")]).2 (translationKey "fr") = "Envoyer"
    ∧ ∃ j, ([⟨1, "Envoyer"⟩, ⟨2, "Soumettre"⟩] : List Item).get? j = some ⟨1, "Envoyer"⟩
        ∧ itemMatches collidePage
            (getPluginData [("nodeKey", "home.button.submit")] "nodeKey")
            ⟨1, "Envoyer"⟩ = true
        ∧ ∀ k u, k < j →
            ([⟨1, "Envoyer"⟩, ⟨2, "Soumettre"⟩] : List Item).get? k = some u →
              itemMatches collidePage
                (getPluginData [("nodeKey", "home.button.submit")] "nodeKey") u = false :=
  C10_first_match_wins collidePage [⟨1, "Envoyer"⟩, ⟨2, "Soumettre"⟩] "fr" "Submit"
    [("nodeKey", "home.button.submit")] ⟨1, "Envoyer"⟩ (by decide) (by decide)

end PolyglotUI
